import Mathlib

/-!
Shallow embedding of the acl-utils repository (src/src/AclRule.ts and
src/src/AclDoc.js) together with the leaf set-algebra classes
(Permissions, Agents, utils) whose source files are absent from the
repository snapshot; those leaves are modelled from the specification's
§4.1 contract and are marked as such in their doc comments.
-/

set_option autoImplicit false

/-- Modelled from the spec: the closed vocabulary of permission kinds
(read, write, append, control); Permissions.ts is not in src/. -/
inductive Permission where
  | read
  | write
  | append
  | control
deriving DecidableEq

/-- Modelled from the spec: a PermissionSet is a duplicate-free set of
permission kinds. -/
abbrev Permissions := Finset Permission

/-- Modelled from the spec: agent descriptors — public, authenticated,
webId(id), group(id), origin(id); Agents.ts is not in src/. -/
inductive Agent where
  | public
  | authenticated
  | webId (id : String)
  | group (id : String)
  | origin (id : String)
deriving DecidableEq

/-- Modelled from the spec: an AgentSet is a duplicate-free set of agent
descriptors. -/
abbrev Agents := Finset Agent

/-- Modelled from the spec: Permissions.common is set intersection. -/
def Permissions.common (a b : Permissions) : Permissions := a ∩ b

/-- Modelled from the spec: Permissions.subtract is set difference. -/
def Permissions.subtract (a b : Permissions) : Permissions := a \ b

/-- Modelled from the spec: Permissions.merge is set union. -/
def Permissions.merge (a b : Permissions) : Permissions := a ∪ b

/-- Modelled from the spec: includes(other) is true iff other is a subset. -/
def Permissions.includes (a b : Permissions) : Bool := decide (b ⊆ a)

/-- Modelled from the spec: Permissions.isEmpty. -/
def Permissions.isEmpty (a : Permissions) : Bool := decide (a = ∅)

/-- Modelled from the spec: Agents.common is set intersection. -/
def Agents.common (a b : Agents) : Agents := a ∩ b

/-- Modelled from the spec: Agents.subtract is set difference. -/
def Agents.subtract (a b : Agents) : Agents := a \ b

/-- Modelled from the spec: Agents.merge is set union. -/
def Agents.merge (a b : Agents) : Agents := a ∪ b

/-- Modelled from the spec: includes(other) is true iff other is a subset. -/
def Agents.includes (a b : Agents) : Bool := decide (b ⊆ a)

/-- Modelled from the spec: Agents.isEmpty. -/
def Agents.isEmpty (a : Agents) : Bool := decide (a = ∅)

/-- Modelled from the spec: iterableEquals (utils.ts is not in src/) is
order-sensitive element-wise equality of the two lists. Quads are kept
opaque and are represented by strings compared by value. -/
def iterableEquals (a b : List String) : Bool := a == b

/-- AclRule (src/src/AclRule.ts, lines 34-49): permissions, agents, the
accessTo label array, the otherQuads passthrough array, and the two
default flags taken from the options object. -/
structure AclRule where
  permissions : Permissions
  agents : Agents
  accessTo : List String
  otherQuads : List String
  default : Option String
  defaultForNew : Option String
deriving DecidableEq

/-- The constructor call new AclRule(permissions, agents, accessTo) with
the options argument left at its defaults (no otherQuads, no flags),
as used by AclDoc._ruleFromArgs via AclRule.from. -/
def AclRule.fromParts (permissions : Permissions) (agents : Agents)
    (accessTo : List String) : AclRule :=
  ⟨permissions, agents, accessTo, [], none, none⟩

/-- AclRule.hasNoEffect (src/src/AclRule.ts, lines 69-75): true when no
unknown quads are stored and the permissions, the agents or the accessTo
list is empty. -/
def AclRule.hasNoEffect (r : AclRule) : Bool :=
  r.otherQuads.isEmpty &&
    (Permissions.isEmpty r.permissions || Agents.isEmpty r.agents || r.accessTo.isEmpty)

/-- AclRule.equals (src/src/AclRule.ts, lines 57-63): compares otherQuads
element-wise, permissions and agents as sets, and the two flags.
The accessTo field is not compared by the source. -/
def AclRule.equals (a b : AclRule) : Bool :=
  iterableEquals a.otherQuads b.otherQuads &&
    decide (a.permissions = b.permissions) &&
    decide (a.agents = b.agents) &&
    a.default == b.default &&
    a.defaultForNew == b.defaultForNew

/-- First piece pushed by AclRule.subtract (src/src/AclRule.ts, line 122):
all of first's permissions for the agents of first untouched by second;
accessTo, otherQuads and the flags are taken from first (_getOptions). -/
def AclRule.subtractPiece1 (first second : AclRule) : AclRule :=
  ⟨first.permissions, Agents.subtract first.agents second.agents,
    first.accessTo, first.otherQuads, first.default, first.defaultForNew⟩

/-- Second piece pushed by AclRule.subtract (src/src/AclRule.ts, line 128):
the permissions of first untouched by second for the agents common to
both; accessTo, otherQuads and the flags are taken from first. -/
def AclRule.subtractPiece2 (first second : AclRule) : AclRule :=
  ⟨Permissions.subtract first.permissions second.permissions,
    Agents.common first.agents second.agents,
    first.accessTo, first.otherQuads, first.default, first.defaultForNew⟩

/-- AclRule.subtract (src/src/AclRule.ts, lines 115-131): push the two
decomposition pieces, then drop the pieces that have no effect. -/
def AclRule.subtract (first second : AclRule) : List AclRule :=
  [AclRule.subtractPiece1 first second, AclRule.subtractPiece2 first second].filter
    (fun r => ! r.hasNoEffect)

/-- The decimal digit characters, used to model the string conversion a
JavaScript number undergoes in string concatenation. -/
def digitToChar (n : Nat) : Char :=
  match n with
  | 0 => '0'
  | 1 => '1'
  | 2 => '2'
  | 3 => '3'
  | 4 => '4'
  | 5 => '5'
  | 6 => '6'
  | 7 => '7'
  | 8 => '8'
  | _ => '9'

/-- Inverse of digitToChar on decimal digit characters. -/
def charToDigit (c : Char) : Nat :=
  match c with
  | '0' => 0
  | '1' => 1
  | '2' => 2
  | '3' => 3
  | '4' => 4
  | '5' => 5
  | '6' => 6
  | '7' => 7
  | '8' => 8
  | _ => 9

/-- Fuel-bounded decimal printing of a natural number, most significant
digit first. With fuel at least the number of digits it produces the
usual decimal numeral. -/
def natToChars : Nat → Nat → List Char
  | 0, _ => []
  | fuel + 1, n =>
    if n < 10 then [digitToChar n]
    else natToChars fuel (n / 10) ++ [digitToChar (n % 10)]

/-- Decimal rendering of a natural number, as JavaScript renders a
non-negative integer when concatenated to a string. -/
def natToStr (n : Nat) : String := String.mk (natToChars (n + 1) n)

/-- Decimal value of a list of digit characters; the empty list reads as
0, matching JavaScript's Number applied to the empty string. -/
def charsToNat (l : List Char) : Nat :=
  l.foldl (fun acc c => acc * 10 + charToDigit c) 0

/-- The trailing digit characters of a string, the match of the regular
expression used by AclDoc._getNewSubjectId (src/src/AclDoc.js, line 282). -/
def trailingDigitChars (s : String) : List Char :=
  (s.data.reverse.takeWhile Char.isDigit).reverse

/-- The string with its trailing digits removed (src/src/AclDoc.js,
line 283). -/
def stripTrailingDigits (s : String) : String :=
  String.mk (s.data.reverse.dropWhile Char.isDigit).reverse

/-- Number(base.match of trailing digits): the value of the trailing
digits, 0 when the string does not end with a digit
(src/src/AclDoc.js, line 282). -/
def startIndex (s : String) : Nat := charsToNat (trailingDigitChars s)

/-- The while loop of AclDoc._getNewSubjectId (src/src/AclDoc.js,
lines 285-287): increment the index until base + index is unused. The
recursion is bounded by a fuel argument; one more than the number of
stored keys always suffices. -/
def findFreeIndex (keys : List String) (b : String) : Nat → Nat → Nat
  | 0, i => i
  | fuel + 1, i =>
    if (b ++ natToStr i) ∈ keys then findFreeIndex keys b fuel (i + 1) else i

/-- AclDoc (src/src/AclDoc.js, lines 39-46): the optional default
accessTo value, the subject-id-to-rule mapping (a JavaScript object with
string keys, modelled as an insertion-ordered association list with
unique keys), and the document-level otherQuads. -/
structure AclDoc where
  defaultAccessTo : Option String
  rules : List (String × AclRule)
  otherQuads : List String
deriving DecidableEq

/-- Property read this.rules[subjectId] on the rules object: the value at
the first matching key, if any. -/
def lookupRule : List (String × AclRule) → String → Option AclRule
  | [], _ => none
  | (k, r) :: rest, key => if k = key then some r else lookupRule rest key

/-- Property write this.rules[subjectId] = rule: replace the value at an
existing key in place, otherwise append the new key at the end, as a
JavaScript object records a new string key in insertion order. -/
def storeSet : List (String × AclRule) → String → AclRule → List (String × AclRule)
  | [], key, v => [(key, v)]
  | (k, r) :: rest, key, v =>
    if k = key then (key, v) :: rest else (k, r) :: storeSet rest key v

/-- delete this.rules[subjectId]: remove the entry with the given key. -/
def eraseKey : List (String × AclRule) → String → List (String × AclRule)
  | [], _ => []
  | (k, r) :: rest, key =>
    if k = key then eraseKey rest key else (k, r) :: eraseKey rest key

/-- AclDoc._getNewSubjectId (src/src/AclDoc.js, lines 281-289): strip the
trailing digits from the base, then append the first index, counting
upward from the value of those digits, that is not a key of the rules
mapping. The source's default base is the string new-acl-rule-1. -/
def AclDoc.getNewSubjectId (doc : AclDoc) (base : String) : String :=
  let keys := doc.rules.map Prod.fst
  let b := stripTrailingDigits base
  b ++ natToStr (findFreeIndex keys b (keys.length + 1) (startIndex base))

/-- AclDoc._getDefaultAccessTo (src/src/AclDoc.js, lines 269-274): the
configured default, none standing for the thrown error. -/
def AclDoc.getDefaultAccessTo (doc : AclDoc) : Option String := doc.defaultAccessTo

/-- AclDoc._ruleFromArgs (src/src/AclDoc.js, lines 258-264): build the
rule via AclRule.from; when its accessTo list is empty, push the
document default, and fail (none) when no default is configured. -/
def AclDoc.ruleFromArgs (doc : AclDoc) (permissions : Permissions) (agents : Agents)
    (accessTo : List String) : Option AclRule :=
  let rule := AclRule.fromParts permissions agents accessTo
  if rule.accessTo.isEmpty then
    match doc.getDefaultAccessTo with
    | none => none
    | some d => some { rule with accessTo := rule.accessTo ++ [d] }
  else
    some rule

/-- AclDoc.addRule (src/src/AclDoc.js, lines 59-64): build the rule,
take the given subject id when present and truthy, otherwise generate a
fresh one from the default base, and store the rule there. -/
def AclDoc.addRule (doc : AclDoc) (permissions : Permissions) (agents : Agents)
    (accessTo : List String) (subjectId : Option String) : Option AclDoc :=
  match doc.ruleFromArgs permissions agents accessTo with
  | none => none
  | some rule =>
    let sid :=
      match subjectId with
      | some s => if s = "" then doc.getNewSubjectId "new-acl-rule-1" else s
      | none => doc.getNewSubjectId "new-acl-rule-1"
    some { doc with rules := storeSet doc.rules sid rule }

/-- The inner while loop of AclDoc.hasRule (src/src/AclDoc.js,
lines 81-85): pop each semi rule off the end of rulesToCheck and push
the pieces of its subtraction by r onto newRulesToCheck. -/
def processRemaining (rulesToCheck : List AclRule) (r : AclRule) : List AclRule :=
  rulesToCheck.reverse.foldl (fun acc rule => acc ++ AclRule.subtract rule r) []

/-- The outer for loop of AclDoc.hasRule (src/src/AclDoc.js,
lines 80-93): fold the stored rules through the while loop, returning
true as soon as no semi rule is left and false after the last rule. -/
def hasRuleLoop : List AclRule → List AclRule → Bool
  | _, [] => false
  | rulesToCheck, r :: rest =>
    let next := processRemaining rulesToCheck r
    if next.isEmpty then true else hasRuleLoop next rest

/-- AclDoc.hasRule (src/src/AclDoc.js, lines 76-94): build the query
rule (returning the post-call document unchanged, since the method never
assigns to this.rules) and run the subtraction loop over the stored
rules. -/
def AclDoc.hasRule (doc : AclDoc) (permissions : Permissions) (agents : Agents)
    (accessTo : List String) : AclDoc × Option Bool :=
  match doc.ruleFromArgs permissions agents accessTo with
  | none => (doc, none)
  | some q => (doc, some (hasRuleLoop [q] (doc.rules.map Prod.snd)))

/-- AclDoc.deleteBySubject (src/src/AclDoc.js, lines 117-140): when the
subject id is present, either drop the whole entry (no rule given), or
subtract the rule from the stored one: a single fragment replaces the
entry in place, otherwise the entry is deleted and every fragment is
reinserted under a freshly generated subject id derived from the
original. -/
def AclDoc.deleteBySubject (doc : AclDoc) (subjectId : String)
    (rule : Option AclRule) : AclDoc :=
  match lookupRule doc.rules subjectId, rule with
  | none, _ => doc
  | some _, none => { doc with rules := eraseKey doc.rules subjectId }
  | some prevRule, some r =>
    let newRules := AclRule.subtract prevRule r
    match newRules with
    | [nr] => { doc with rules := storeSet doc.rules subjectId nr }
    | _ =>
      let start := { doc with rules := eraseKey doc.rules subjectId }
      newRules.foldl
        (fun d nr => { d with rules := storeSet d.rules (d.getNewSubjectId subjectId) nr })
        start

/-- AclDoc.deleteRule (src/src/AclDoc.js, lines 105-111): build the rule
to delete and apply deleteBySubject to every key of a snapshot of the
rules mapping. -/
def AclDoc.deleteRule (doc : AclDoc) (permissions : Permissions) (agents : Agents)
    (accessTo : List String) : Option AclDoc :=
  match doc.ruleFromArgs permissions agents accessTo with
  | none => none
  | some toDelete =>
    some ((doc.rules.map Prod.fst).foldl
      (fun d sid => d.deleteBySubject sid (some toDelete)) doc)

/-- AclDoc.deletePermissions (src/src/AclDoc.js, lines 162-169): for
every entry of a snapshot of the mapping, delete the given permissions
restricted to that rule's own agents; the rule built by the source has
an empty accessTo list. -/
def AclDoc.deletePermissions (doc : AclDoc) (permissions : Permissions) : AclDoc :=
  doc.rules.foldl
    (fun d p => d.deleteBySubject p.1 (some (AclRule.fromParts permissions p.2.agents [])))
    doc

/-- JavaScript's Array.prototype.reduce without an initial value: fails
on an empty array (the spec's EmptyReductionError, modelled as none),
otherwise folds from the first element. -/
def reduceNoInit {α : Type} (f : α → α → α) : List α → Option α
  | [] => none
  | x :: xs => some (xs.foldl f x)

/-- AclDoc.getPermissionsFor (src/src/AclDoc.js, lines 182-189): reduce
the permissions of the stored rules whose agents include the queried
agents with Permissions.merge; the store is returned unchanged since the
method never assigns to this.rules. -/
def AclDoc.getPermissionsFor (doc : AclDoc) (agents : Agents) :
    AclDoc × Option Permissions :=
  (doc, reduceNoInit Permissions.merge
    (((doc.rules.map Prod.snd).filter (fun r => Agents.includes r.agents agents)).map
      AclRule.permissions))

/-- AclDoc.getAgentsWith (src/src/AclDoc.js, lines 203-210): reduce the
agents of the stored rules whose permissions include the queried
permissions with Agents.merge; the store is returned unchanged since the
method never assigns to this.rules. -/
def AclDoc.getAgentsWith (doc : AclDoc) (permissions : Permissions) :
    AclDoc × Option Agents :=
  (doc, reduceNoInit Agents.merge
    (((doc.rules.map Prod.snd).filter (fun r => Permissions.includes r.permissions permissions)).map
      AclRule.agents))

/-- AclDoc.getMinifiedRules (src/src/AclDoc.js, lines 216-224): delete
every entry whose rule has no effect, then return the surviving mapping
(the mutated store together with the returned value). -/
def AclDoc.getMinifiedRules (doc : AclDoc) : AclDoc × List (String × AclRule) :=
  let pruned := doc.rules.filter (fun p => ! p.2.hasNoEffect)
  ({ doc with rules := pruned }, pruned)

/-- The first rule of the worked example in the source's doc comment for
subtract, given a concrete accessTo label. -/
def exampleFirstRule : AclRule :=
  AclRule.fromParts {Permission.read, Permission.write}
    {Agent.webId "web", Agent.webId "id"} ["f"]

/-- The second rule of the worked example in the source's doc comment
for subtract. -/
def exampleSecondRule : AclRule :=
  AclRule.fromParts {Permission.read} {Agent.webId "web"} ["f"]

/-- The store of the spec's concrete scenario: one subject granting read
and write to the webIds A and B, over the document default accessTo. -/
def scenarioDoc : AclDoc :=
  ⟨some "file",
    [("s1", ⟨{Permission.read, Permission.write}, {Agent.webId "A", Agent.webId "B"},
      ["file"], [], none, none⟩)], []⟩

/-- A (permission, agent) pair lies in the rectangle of a rule. -/
def pairIn (p : Permission) (a : Agent) (r : AclRule) : Prop :=
  p ∈ r.permissions ∧ a ∈ r.agents

instance (p : Permission) (a : Agent) (r : AclRule) : Decidable (pairIn p a r) :=
  inferInstanceAs (Decidable (p ∈ r.permissions ∧ a ∈ r.agents))

theorem hasNoEffect_iff (r : AclRule) :
    r.hasNoEffect = true ↔
      (r.otherQuads = [] ∧ (r.permissions = ∅ ∨ r.agents = ∅ ∨ r.accessTo = [])) := by
  simp [AclRule.hasNoEffect, Permissions.isEmpty, Agents.isEmpty, List.isEmpty_iff,
    or_assoc]

theorem hasNoEffect_false_of_pair (r : AclRule) (p : Permission) (a : Agent)
    (hp : p ∈ r.permissions) (ha : a ∈ r.agents)
    (h : r.accessTo ≠ [] ∨ r.otherQuads ≠ []) : r.hasNoEffect = false := by
  rw [Bool.eq_false_iff]
  intro hne
  rw [hasNoEffect_iff] at hne
  rcases hne with ⟨hq, hcases⟩
  rcases h with h | h
  · rcases hcases with hc | hc | hc
    · exact Finset.ne_empty_of_mem hp hc
    · exact Finset.ne_empty_of_mem ha hc
    · exact h hc
  · exact h hq

theorem pairIn_subtractPiece1 (f s : AclRule) (p : Permission) (a : Agent) :
    pairIn p a (AclRule.subtractPiece1 f s) ↔
      (p ∈ f.permissions ∧ a ∈ f.agents ∧ a ∉ s.agents) := by
  simp [pairIn, AclRule.subtractPiece1, Agents.subtract, Finset.mem_sdiff, and_assoc]

theorem pairIn_subtractPiece2 (f s : AclRule) (p : Permission) (a : Agent) :
    pairIn p a (AclRule.subtractPiece2 f s) ↔
      ((p ∈ f.permissions ∧ p ∉ s.permissions) ∧ (a ∈ f.agents ∧ a ∈ s.agents)) := by
  simp [pairIn, AclRule.subtractPiece2, Permissions.subtract, Agents.common,
    Finset.mem_sdiff, Finset.mem_inter]

theorem mem_subtract_iff (f s x : AclRule) :
    x ∈ AclRule.subtract f s ↔
      ((x = AclRule.subtractPiece1 f s ∨ x = AclRule.subtractPiece2 f s) ∧
        x.hasNoEffect = false) := by
  simp [AclRule.subtract, List.mem_filter, Bool.not_eq_true']

/-- Claim C2, counterexample: a rule with a non-empty otherQuads list
subtracted from itself yields two fragments, not the empty list, because
hasNoEffect is false whenever unknown quads are stored. -/
theorem claim_C2_counterexample :
    AclRule.subtract (⟨∅, ∅, [], ["q"], none, none⟩ : AclRule)
      (⟨∅, ∅, [], ["q"], none, none⟩ : AclRule) ≠ [] := by
  decide

/-- Claim C2 (amended): for every rule A whose passthrough list is
empty, AclRule.subtract A A returns the empty list: both decomposition
pieces are ineffective and are dropped by the pruning filter. -/
theorem claim_C2_subtract_self (A : AclRule) (h : A.otherQuads = []) :
    AclRule.subtract A A = [] := by
  simp [AclRule.subtract, AclRule.subtractPiece1, AclRule.subtractPiece2,
    AclRule.hasNoEffect, Agents.subtract, Permissions.subtract,
    Permissions.isEmpty, Agents.isEmpty, Finset.sdiff_self, h]

/-- Claim C2, witness: evaluation of the amended theorem at a concrete
rule with both dimensions populated and no passthrough quads. -/
theorem claim_C2_witness :
    (⟨{Permission.read}, {Agent.public}, ["f"], [], none, none⟩ : AclRule).otherQuads = [] ∧
      AclRule.subtract
        (⟨{Permission.read}, {Agent.public}, ["f"], [], none, none⟩ : AclRule)
        (⟨{Permission.read}, {Agent.public}, ["f"], [], none, none⟩ : AclRule) = [] :=
  ⟨rfl, claim_C2_subtract_self _ rfl⟩

/-- Claim C5, counterexample: two rules that differ only in their
accessTo labels are reported equal by AclRule.equals, so agreement on
the accessTo field is not part of the comparison. -/
theorem claim_C5_counterexample :
    AclRule.equals (⟨{Permission.read}, {Agent.public}, ["x"], [], none, none⟩ : AclRule)
        (⟨{Permission.read}, {Agent.public}, ["y"], [], none, none⟩ : AclRule) = true ∧
      (⟨{Permission.read}, {Agent.public}, ["x"], [], none, none⟩ : AclRule).accessTo ≠
        (⟨{Permission.read}, {Agent.public}, ["y"], [], none, none⟩ : AclRule).accessTo := by
  constructor
  · decide
  · decide

/-- Claim C5 (amended): AclRule.equals A B is true iff A and B agree on
every field except accessTo, which the source never compares: equal
permission sets, equal agent sets, equal default and defaultForNew
flags, and element-wise equal passthrough lists. -/
theorem claim_C5_equals_iff (a b : AclRule) :
    AclRule.equals a b = true ↔
      (a.otherQuads = b.otherQuads ∧ a.permissions = b.permissions ∧
        a.agents = b.agents ∧ a.default = b.default ∧
        a.defaultForNew = b.defaultForNew) := by
  simp [AclRule.equals, iterableEquals, and_assoc]

/-- Claim C1, counterexample: with accessTo and otherQuads both empty on
the first operand, every fragment is pruned as ineffective, so a
(permission, agent) pair of A missed by B is contained in no returned
fragment rather than in exactly one. -/
theorem claim_C1_counterexample :
    (⟨{Permission.read}, {Agent.public}, [], [], none, none⟩ : AclRule).accessTo =
        (⟨∅, ∅, [], [], none, none⟩ : AclRule).accessTo ∧
      Permission.read ∈
        (⟨{Permission.read}, {Agent.public}, [], [], none, none⟩ : AclRule).permissions ∧
      Agent.public ∈
        (⟨{Permission.read}, {Agent.public}, [], [], none, none⟩ : AclRule).agents ∧
      Permission.read ∉ (⟨∅, ∅, [], [], none, none⟩ : AclRule).permissions ∧
      (AclRule.subtract (⟨{Permission.read}, {Agent.public}, [], [], none, none⟩ : AclRule)
            (⟨∅, ∅, [], [], none, none⟩ : AclRule)).countP
          (fun f => decide (pairIn Permission.read Agent.public f)) = 0 := by
  decide

/-- Claim C1 (amended): for rules A and B with the same accessTo labels,
provided A's accessTo list or A's passthrough list is non-empty (so that
a fragment containing a pair is never pruned), the fragments of
AclRule.subtract A B are pairwise disjoint in (permission, agent) pairs;
a pair of A's rectangle missed by B's rectangle lies in exactly one
fragment, and a pair of B's rectangle lies in no fragment. -/
theorem claim_C1_subtract_exact (A B : AclRule) (_hacc : A.accessTo = B.accessTo)
    (heff : A.accessTo ≠ [] ∨ A.otherQuads ≠ []) :
    (AclRule.subtract A B).Pairwise
        (fun f g => ∀ p a, ¬(pairIn p a f ∧ pairIn p a g)) ∧
      (∀ p a, p ∈ A.permissions → a ∈ A.agents →
        (p ∉ B.permissions ∨ a ∉ B.agents) →
        (AclRule.subtract A B).countP (fun f => decide (pairIn p a f)) = 1) ∧
      (∀ p a, p ∈ B.permissions → a ∈ B.agents →
        ∀ f ∈ AclRule.subtract A B, ¬ pairIn p a f) := by
  refine ⟨?_, ?_, ?_⟩
  · have hpw : ([AclRule.subtractPiece1 A B, AclRule.subtractPiece2 A B]).Pairwise
        (fun f g => ∀ p a, ¬(pairIn p a f ∧ pairIn p a g)) := by
      refine List.pairwise_cons.2 ⟨?_, List.pairwise_singleton _ _⟩
      intro g hg p a hpa
      rcases List.mem_singleton.1 hg with rfl
      rcases hpa with ⟨h1, h2⟩
      rw [pairIn_subtractPiece1] at h1
      rw [pairIn_subtractPiece2] at h2
      exact h1.2.2 h2.2.2
    exact hpw.filter _
  · intro p a hpA haA hmiss
    rw [AclRule.subtract, List.countP_filter, List.countP_cons, List.countP_cons,
      List.countP_nil]
    rcases Decidable.em (a ∈ B.agents) with haB | haB
    · have hpB : p ∉ B.permissions := by
        rcases hmiss with h | h
        · exact h
        · exact absurd haB h
      have h2 : pairIn p a (AclRule.subtractPiece2 A B) := by
        rw [pairIn_subtractPiece2]
        exact ⟨⟨hpA, hpB⟩, haA, haB⟩
      have h1 : ¬ pairIn p a (AclRule.subtractPiece1 A B) := by
        rw [pairIn_subtractPiece1]
        intro h
        exact h.2.2 haB
      have hk : (AclRule.subtractPiece2 A B).hasNoEffect = false :=
        hasNoEffect_false_of_pair _ p a h2.1 h2.2 heff
      simp [h1, h2, hk]
    · have h1 : pairIn p a (AclRule.subtractPiece1 A B) := by
        rw [pairIn_subtractPiece1]
        exact ⟨hpA, haA, haB⟩
      have h2 : ¬ pairIn p a (AclRule.subtractPiece2 A B) := by
        rw [pairIn_subtractPiece2]
        intro h
        exact haB h.2.2
      have hk : (AclRule.subtractPiece1 A B).hasNoEffect = false := by
        exact hasNoEffect_false_of_pair _ p a h1.1 h1.2 heff
      simp [h1, h2, hk]
  · intro p a hpB haB f hf hpa
    rcases (mem_subtract_iff A B f).1 hf with ⟨hor, _⟩
    rcases hor with rfl | rfl
    · rw [pairIn_subtractPiece1] at hpa
      exact hpa.2.2 haB
    · rw [pairIn_subtractPiece2] at hpa
      exact hpa.1.2 hpB

/-- Claim C1, witness: the amended theorem applied to the worked example
of the source's doc comment, rules over a real accessTo label. -/
theorem claim_C1_witness :
    (exampleFirstRule.accessTo = exampleSecondRule.accessTo ∧
        exampleFirstRule.accessTo ≠ []) ∧
      (AclRule.subtract exampleFirstRule exampleSecondRule).Pairwise
        (fun f g => ∀ p a, ¬(pairIn p a f ∧ pairIn p a g)) :=
  ⟨⟨rfl, by decide⟩,
    (claim_C1_subtract_exact exampleFirstRule exampleSecondRule rfl
      (Or.inl (by decide))).1⟩

theorem reduceNoInit_union {γ : Type} [DecidableEq γ] (xs : List (Finset γ)) :
    reduceNoInit (fun a b => a ∪ b) xs =
      if xs = [] then none else some (xs.foldl (fun a b => a ∪ b) ∅) := by
  cases xs with
  | nil => rfl
  | cons x xs => simp [reduceNoInit, Finset.empty_union]

/-- Claim C6: getPermissionsFor returns the union of the permissions of
exactly the stored rules whose agents include the queried agents, and
fails (EmptyReductionError, modelled as none) precisely when no stored
rule qualifies; getAgentsWith is the symmetric counterpart over rules
whose permissions include the queried permissions. -/
theorem claim_C6_aggregates (doc : AclDoc) (ag : Agents) (ps : Permissions) :
    (doc.getPermissionsFor ag).2 =
      (if ((doc.rules.map Prod.snd).filter
          (fun r => Agents.includes r.agents ag)) = [] then none
        else some (((doc.rules.map Prod.snd).filter
            (fun r => Agents.includes r.agents ag)).foldl
          (fun acc r => acc ∪ r.permissions) ∅)) ∧
      (doc.getAgentsWith ps).2 =
        (if ((doc.rules.map Prod.snd).filter
            (fun r => Permissions.includes r.permissions ps)) = [] then none
          else some (((doc.rules.map Prod.snd).filter
              (fun r => Permissions.includes r.permissions ps)).foldl
            (fun acc r => acc ∪ r.agents) ∅)) := by
  constructor
  · have hm : Permissions.merge = fun a b => a ∪ b := rfl
    rw [AclDoc.getPermissionsFor, hm, reduceNoInit_union]
    by_cases hc :
        (doc.rules.map Prod.snd).filter (fun r => Agents.includes r.agents ag) = []
    · simp [hc]
    · simp [hc, List.map_eq_nil_iff, List.foldl_map]
  · have hm : Agents.merge = fun a b => a ∪ b := rfl
    rw [AclDoc.getAgentsWith, hm, reduceNoInit_union]
    by_cases hc :
        (doc.rules.map Prod.snd).filter (fun r => Permissions.includes r.permissions ps) = []
    · simp [hc]
    · simp [hc, List.map_eq_nil_iff, List.foldl_map]

/-- Claim C9: the query operations hasRule, getPermissionsFor and
getAgentsWith return the document with its rule mapping unchanged; in
the source they never assign to this.rules, which the state-passing
embedding records by returning the pre-call document. -/
theorem claim_C9_queries_pure (doc : AclDoc) (ps qs : Permissions) (ag bg : Agents)
    (accessTo : List String) :
    (doc.hasRule ps ag accessTo).1 = doc ∧
      (doc.getPermissionsFor bg).1 = doc ∧
      (doc.getAgentsWith qs).1 = doc := by
  refine ⟨?_, rfl, rfl⟩
  cases h : doc.ruleFromArgs ps ag accessTo <;> simp [AclDoc.hasRule, h]

/-- Claim C4: on the scenario store, hasRule read A is true; after
deleteRule read A, hasRule read A is false while hasRule write A and
hasRule read+write B remain true. -/
theorem claim_C4_scenario :
    (scenarioDoc.hasRule {Permission.read} {Agent.webId "A"} []).2 = some true ∧
      ((scenarioDoc.deleteRule {Permission.read} {Agent.webId "A"} []).map
        (fun d => (d.hasRule {Permission.read} {Agent.webId "A"} []).2)) =
          some (some false) ∧
      ((scenarioDoc.deleteRule {Permission.read} {Agent.webId "A"} []).map
        (fun d => (d.hasRule {Permission.write} {Agent.webId "A"} []).2)) =
          some (some true) ∧
      ((scenarioDoc.deleteRule {Permission.read} {Agent.webId "A"} []).map
        (fun d => (d.hasRule {Permission.read, Permission.write}
          {Agent.webId "B"} []).2)) = some (some true) := by
  decide

theorem subtract_eq_nil_of_empty (q r : AclRule) (hq : q.otherQuads = [])
    (h : q.permissions = ∅ ∨ q.agents = ∅) : AclRule.subtract q r = [] := by
  rcases h with h | h <;>
    simp [AclRule.subtract, AclRule.subtractPiece1, AclRule.subtractPiece2,
      AclRule.hasNoEffect, Agents.subtract, Agents.common, Permissions.subtract,
      Permissions.isEmpty, Agents.isEmpty, hq, h, Finset.empty_sdiff, Finset.empty_inter]

/-- Claim C10: a hasRule query whose constructed rule has an empty
permission set or an empty agent set (its passthrough is always empty)
answers true exactly when the store holds at least one rule, because the
true branch is only reachable inside the loop over stored rules. -/
theorem claim_C10_vacuous_query (doc : AclDoc) (P : Permissions) (Ag : Agents)
    (d : String) (hd : doc.defaultAccessTo = some d) (h : P = ∅ ∨ Ag = ∅) :
    ((doc.hasRule P Ag []).2 = some true ↔ doc.rules ≠ []) := by
  have hq : doc.ruleFromArgs P Ag [] = some ⟨P, Ag, [d], [], none, none⟩ := by
    simp [AclDoc.ruleFromArgs, AclDoc.getDefaultAccessTo, hd, AclRule.fromParts]
  rw [AclDoc.hasRule, hq]
  cases hr : doc.rules with
  | nil => simp [hasRuleLoop]
  | cons x rest =>
    have hsub : AclRule.subtract (⟨P, Ag, [d], [], none, none⟩ : AclRule) x.2 = [] :=
      subtract_eq_nil_of_empty _ _ rfl h
    simp [hasRuleLoop, processRemaining, hsub]

/-- Claim C10, witness: the theorem evaluated at a one-rule store and an
empty queried permission set. -/
theorem claim_C10_witness :
    (scenarioDoc.defaultAccessTo = some "file" ∧
        ((∅ : Permissions) = ∅ ∨ ({Agent.public} : Agents) = ∅)) ∧
      ((scenarioDoc.hasRule ∅ {Agent.public} []).2 = some true ↔
        scenarioDoc.rules ≠ []) :=
  ⟨⟨rfl, Or.inl rfl⟩,
    claim_C10_vacuous_query scenarioDoc ∅ {Agent.public} "file" rfl (Or.inl rfl)⟩

theorem subtract_accessTo_otherQuads (f s x : AclRule) (hx : x ∈ AclRule.subtract f s) :
    x.accessTo = f.accessTo ∧ x.otherQuads = f.otherQuads := by
  rcases (mem_subtract_iff f s x).1 hx with ⟨h | h, _⟩ <;> subst h <;> exact ⟨rfl, rfl⟩

theorem subtract_effective (f s x : AclRule) (hx : x ∈ AclRule.subtract f s) :
    x.hasNoEffect = false :=
  ((mem_subtract_iff f s x).1 hx).2

theorem pair_exists_of_effective (x : AclRule) (hq : x.otherQuads = [])
    (he : x.hasNoEffect = false) : ∃ p a, pairIn p a x := by
  rw [Bool.eq_false_iff, Ne, hasNoEffect_iff] at he
  push_neg at he
  obtain ⟨hp, ha, _⟩ := he hq
  obtain ⟨p, hpm⟩ := Finset.nonempty_iff_ne_empty.2 hp
  obtain ⟨a, ham⟩ := Finset.nonempty_iff_ne_empty.2 ha
  exact ⟨p, a, hpm, ham⟩

theorem exists_pairIn_subtract (f s : AclRule) (_hq : f.otherQuads = [])
    (ha : f.accessTo ≠ []) (p : Permission) (a : Agent) :
    (∃ x ∈ AclRule.subtract f s, pairIn p a x) ↔ (pairIn p a f ∧ ¬ pairIn p a s) := by
  constructor
  · rintro ⟨x, hx, hpa⟩
    rcases (mem_subtract_iff f s x).1 hx with ⟨hor, _⟩
    rcases hor with rfl | rfl
    · rw [pairIn_subtractPiece1] at hpa
      exact ⟨⟨hpa.1, hpa.2.1⟩, fun hs => hpa.2.2 hs.2⟩
    · rw [pairIn_subtractPiece2] at hpa
      exact ⟨⟨hpa.1.1, hpa.2.1⟩, fun hs => hpa.1.2 hs.1⟩
  · rintro ⟨⟨hp, haA⟩, hmiss⟩
    rcases Decidable.em (a ∈ s.agents) with haS | haS
    · have hpair : pairIn p a (AclRule.subtractPiece2 f s) := by
        rw [pairIn_subtractPiece2]
        exact ⟨⟨hp, fun hp2 => hmiss ⟨hp2, haS⟩⟩, haA, haS⟩
      refine ⟨_, ?_, hpair⟩
      rw [mem_subtract_iff]
      exact ⟨Or.inr rfl, hasNoEffect_false_of_pair _ p a hpair.1 hpair.2 (Or.inl ha)⟩
    · have hpair : pairIn p a (AclRule.subtractPiece1 f s) := by
        rw [pairIn_subtractPiece1]
        exact ⟨hp, haA, haS⟩
      refine ⟨_, ?_, hpair⟩
      rw [mem_subtract_iff]
      exact ⟨Or.inl rfl, hasNoEffect_false_of_pair _ p a hpair.1 hpair.2 (Or.inl ha)⟩

theorem mem_processRemaining (rtc : List AclRule) (r x : AclRule) :
    x ∈ processRemaining rtc r ↔ ∃ g ∈ rtc, x ∈ AclRule.subtract g r := by
  have key : ∀ (l acc : List AclRule),
      (x ∈ l.foldl (fun acc rule => acc ++ AclRule.subtract rule r) acc ↔
        x ∈ acc ∨ ∃ g ∈ l, x ∈ AclRule.subtract g r) := by
    intro l
    induction l with
    | nil => simp
    | cons y ys ih =>
      intro acc
      rw [List.foldl_cons, ih]
      simp [List.mem_append, or_assoc]
  rw [processRemaining, key]
  simp [List.mem_reverse]

theorem hasRuleLoop_iff (stored : List AclRule) :
    ∀ rtc : List AclRule, rtc ≠ [] →
      (∀ x ∈ rtc, x.otherQuads = [] ∧ x.accessTo ≠ [] ∧ ∃ p a, pairIn p a x) →
      (hasRuleLoop rtc stored = true ↔
        ∀ p a, (∃ x ∈ rtc, pairIn p a x) → ∃ r ∈ stored, pairIn p a r) := by
  induction stored with
  | nil =>
    intro rtc hne hinv
    constructor
    · intro h
      exact absurd h (by simp [hasRuleLoop])
    · intro h
      exfalso
      obtain ⟨x, hx⟩ := List.exists_mem_of_ne_nil rtc hne
      obtain ⟨_, _, p, a, hpa⟩ := hinv x hx
      obtain ⟨r, hr, _⟩ := h p a ⟨x, hx, hpa⟩
      exact absurd hr (List.not_mem_nil r)
  | cons r rest ih =>
    intro rtc hne hinv
    by_cases hnext : processRemaining rtc r = []
    · have hLHS : hasRuleLoop rtc (r :: rest) = true := by
        simp [hasRuleLoop, hnext]
      rw [hLHS]
      constructor
      · rintro - p a ⟨x, hx, hpa⟩
        obtain ⟨hxq, hxa, _⟩ := hinv x hx
        refine ⟨r, List.mem_cons_self r rest, ?_⟩
        by_contra hr
        have : ∃ y ∈ AclRule.subtract x r, pairIn p a y :=
          (exists_pairIn_subtract x r hxq hxa p a).2 ⟨hpa, hr⟩
        obtain ⟨y, hy, -⟩ := this
        have : y ∈ processRemaining rtc r :=
          (mem_processRemaining rtc r y).2 ⟨x, hx, hy⟩
        rw [hnext] at this
        exact absurd this (List.not_mem_nil y)
      · intro _
        rfl
    · have hstep : hasRuleLoop rtc (r :: rest) = hasRuleLoop (processRemaining rtc r) rest := by
        simp [hasRuleLoop, hnext]
      have hinv' : ∀ x ∈ processRemaining rtc r,
          x.otherQuads = [] ∧ x.accessTo ≠ [] ∧ ∃ p a, pairIn p a x := by
        intro x hx
        obtain ⟨g, hg, hxg⟩ := (mem_processRemaining rtc r x).1 hx
        obtain ⟨hgq, hga, _⟩ := hinv g hg
        obtain ⟨hacc, hquads⟩ := subtract_accessTo_otherQuads g r x hxg
        have hq : x.otherQuads = [] := hquads.trans hgq
        refine ⟨hq, hacc ▸ hga, ?_⟩
        exact pair_exists_of_effective x hq (subtract_effective g r x hxg)
      rw [hstep, ih _ hnext hinv']
      constructor
      · intro H p a hrtc
        by_cases hr : pairIn p a r
        · exact ⟨r, List.mem_cons_self r rest, hr⟩
        · obtain ⟨x, hx, hpa⟩ := hrtc
          obtain ⟨hxq, hxa, _⟩ := hinv x hx
          obtain ⟨y, hy, hpy⟩ :=
            (exists_pairIn_subtract x r hxq hxa p a).2 ⟨hpa, hr⟩
          obtain ⟨r2, hr2, hpr2⟩ :=
            H p a ⟨y, (mem_processRemaining rtc r y).2 ⟨x, hx, hy⟩, hpy⟩
          exact ⟨r2, List.mem_cons_of_mem r hr2, hpr2⟩
      · intro H p a hnxt
        obtain ⟨y, hy, hpy⟩ := hnxt
        obtain ⟨x, hx, hxy⟩ := (mem_processRemaining rtc r y).1 hy
        obtain ⟨hxq, hxa, _⟩ := hinv x hx
        have hchar := (exists_pairIn_subtract x r hxq hxa p a).1 ⟨y, hxy, hpy⟩
        obtain ⟨r2, hr2, hpr2⟩ := H p a ⟨x, hx, hchar.1⟩
        rcases List.mem_cons.1 hr2 with rfl | hr3
        · exact absurd hpr2 hchar.2
        · exact ⟨r2, hr3, hpr2⟩

/-- Claim C3: with a configured default accessTo and non-empty queried
permission and agent sets, hasRule answers true iff every queried
(permission, agent) pair is granted by some stored rule. -/
theorem claim_C3_hasRule_iff (doc : AclDoc) (P : Permissions) (Ag : Agents) (d : String)
    (hd : doc.defaultAccessTo = some d) (hP : P.Nonempty) (hA : Ag.Nonempty) :
    ((doc.hasRule P Ag []).2 = some true ↔
      ∀ p ∈ P, ∀ a ∈ Ag, ∃ e ∈ doc.rules, p ∈ e.2.permissions ∧ a ∈ e.2.agents) := by
  have hq : doc.ruleFromArgs P Ag [] = some ⟨P, Ag, [d], [], none, none⟩ := by
    simp [AclDoc.ruleFromArgs, AclDoc.getDefaultAccessTo, hd, AclRule.fromParts]
  obtain ⟨p0, hp0⟩ := hP
  obtain ⟨a0, ha0⟩ := hA
  have hinv : ∀ x ∈ [(⟨P, Ag, [d], [], none, none⟩ : AclRule)],
      x.otherQuads = [] ∧ x.accessTo ≠ [] ∧ ∃ p a, pairIn p a x := by
    intro x hx
    rw [List.mem_singleton] at hx
    subst hx
    exact ⟨rfl, by simp, p0, a0, hp0, ha0⟩
  rw [AclDoc.hasRule, hq]
  simp only [Option.some_inj]
  rw [hasRuleLoop_iff (doc.rules.map Prod.snd) _ (by simp) hinv]
  constructor
  · intro H p hp a ha
    obtain ⟨r, hr, hpr⟩ := H p a
      ⟨⟨P, Ag, [d], [], none, none⟩, List.mem_singleton_self _, hp, ha⟩
    obtain ⟨e, he, rfl⟩ := List.mem_map.1 hr
    exact ⟨e, he, hpr⟩
  · rintro H p a ⟨x, hx, hpa⟩
    rw [List.mem_singleton] at hx
    subst hx
    obtain ⟨e, he, hpe⟩ := H p hpa.1 a hpa.2
    exact ⟨e.2, List.mem_map_of_mem Prod.snd he, hpe⟩

/-- Claim C3, witness: the theorem evaluated on the scenario store for
the query read at webId A, where both sides are true. -/
theorem claim_C3_witness :
    (scenarioDoc.defaultAccessTo = some "file" ∧
        ({Permission.read} : Permissions).Nonempty ∧
        ({Agent.webId "A"} : Agents).Nonempty) ∧
      ((scenarioDoc.hasRule {Permission.read} {Agent.webId "A"} []).2 = some true ↔
        ∀ p ∈ ({Permission.read} : Permissions), ∀ a ∈ ({Agent.webId "A"} : Agents),
          ∃ e ∈ scenarioDoc.rules, p ∈ e.2.permissions ∧ a ∈ e.2.agents) :=
  ⟨⟨rfl, by decide, by decide⟩,
    claim_C3_hasRule_iff scenarioDoc {Permission.read} {Agent.webId "A"} "file" rfl
      (by decide) (by decide)⟩

theorem charToDigit_digitToChar (n : Nat) (h : n < 10) :
    charToDigit (digitToChar n) = n := by
  interval_cases n <;> rfl

theorem charsToNat_append (l : List Char) (c : Char) :
    charsToNat (l ++ [c]) = charsToNat l * 10 + charToDigit c := by
  simp [charsToNat, List.foldl_append]

theorem charsToNat_natToChars :
    ∀ fuel n, n < 10 ^ fuel → charsToNat (natToChars fuel n) = n := by
  intro fuel
  induction fuel with
  | zero =>
    intro n h
    interval_cases n
    rfl
  | succ f ih =>
    intro n h
    rw [natToChars]
    by_cases h10 : n < 10
    · rw [if_pos h10]
      show 0 * 10 + charToDigit (digitToChar n) = n
      rw [charToDigit_digitToChar n h10]
      omega
    · rw [if_neg h10, charsToNat_append,
        ih (n / 10) ((Nat.div_lt_iff_lt_mul (by omega)).2 (by rw [pow_succ] at h; exact h)),
        charToDigit_digitToChar (n % 10) (Nat.mod_lt n (by omega))]
      omega

theorem natToStr_inj (m n : Nat) (h : natToStr m = natToStr n) : m = n := by
  have hb : (1 : Nat) < 10 := by omega
  have hm : charsToNat (natToChars (m + 1) m) = m :=
    charsToNat_natToChars (m + 1) m
      (lt_of_lt_of_le (Nat.lt_pow_self hb m)
        (Nat.pow_le_pow_right (by omega) (Nat.le_succ m)))
  have hn : charsToNat (natToChars (n + 1) n) = n :=
    charsToNat_natToChars (n + 1) n
      (lt_of_lt_of_le (Nat.lt_pow_self hb n)
        (Nat.pow_le_pow_right (by omega) (Nat.le_succ n)))
  have hdata : natToChars (m + 1) m = natToChars (n + 1) n :=
    congrArg String.data h
  rw [← hm, ← hn, hdata]

theorem string_data_append (s t : String) : (s ++ t).data = s.data ++ t.data := rfl

theorem string_append_left_cancel (b s t : String) (h : b ++ s = b ++ t) : s = t := by
  have hdata : b.data ++ s.data = b.data ++ t.data := by
    rw [← string_data_append, ← string_data_append, h]
  have hst : s.data = t.data := List.append_cancel_left hdata
  cases s
  cases t
  exact congrArg String.mk hst

theorem findFreeIndex_spec (keys : List String) (b : String) :
    ∀ fuel i, (∃ d, d < fuel ∧ (b ++ natToStr (i + d)) ∉ keys) →
      ((b ++ natToStr (findFreeIndex keys b fuel i)) ∉ keys ∧
        i ≤ findFreeIndex keys b fuel i ∧
        ∀ k, i ≤ k → k < findFreeIndex keys b fuel i → (b ++ natToStr k) ∈ keys) := by
  intro fuel
  induction fuel with
  | zero =>
    rintro i ⟨d, hd, -⟩
    exact absurd hd (Nat.not_lt_zero d)
  | succ f ih =>
    intro i hex
    by_cases hmem : (b ++ natToStr i) ∈ keys
    · have hex2 : ∃ d, d < f ∧ (b ++ natToStr (i + 1 + d)) ∉ keys := by
        obtain ⟨d, hd, hfree⟩ := hex
        cases d with
        | zero =>
          rw [Nat.add_zero] at hfree
          exact absurd hmem hfree
        | succ e =>
          exact ⟨e, by omega, by rw [show i + 1 + e = i + (e + 1) from by omega]; exact hfree⟩
      have heq : findFreeIndex keys b (f + 1) i = findFreeIndex keys b f (i + 1) := by
        simp [findFreeIndex, hmem]
      obtain ⟨hfree, hle, hmin⟩ := ih (i + 1) hex2
      rw [heq]
      refine ⟨hfree, by omega, ?_⟩
      intro k hk1 hk2
      rcases Nat.eq_or_lt_of_le hk1 with rfl | hklt
      · exact hmem
      · exact hmin k (by omega) hk2
    · have heq : findFreeIndex keys b (f + 1) i = i := by
        simp [findFreeIndex, hmem]
      rw [heq]
      exact ⟨hmem, Nat.le_refl i, fun k h1 h2 => absurd (Nat.lt_of_le_of_lt h1 h2) (lt_irrefl i)⟩

theorem exists_free_index (keys : List String) (b : String) (i : Nat) :
    ∃ d, d < keys.length + 1 ∧ (b ++ natToStr (i + d)) ∉ keys := by
  by_contra hcon
  push_neg at hcon
  have hinj : Function.Injective (fun d : Nat => b ++ natToStr (i + d)) := by
    intro x y hxy
    have h2 : natToStr (i + x) = natToStr (i + y) := string_append_left_cancel b _ _ hxy
    have h3 := natToStr_inj _ _ h2
    omega
  have hnodup : ((List.range (keys.length + 1)).map
      (fun d => b ++ natToStr (i + d))).Nodup :=
    (List.nodup_range _).map hinj
  have hsub : ((List.range (keys.length + 1)).map
      (fun d => b ++ natToStr (i + d))) ⊆ keys := by
    intro x hx
    obtain ⟨d, hd, rfl⟩ := List.mem_map.1 hx
    exact hcon d (List.mem_range.1 hd)
  have hle := (List.subperm_of_subset hnodup hsub).length_le
  simp at hle

theorem getNewSubjectId_spec (doc : AclDoc) (base : String) :
    (doc.getNewSubjectId base) ∉ doc.rules.map Prod.fst ∧
      ∃ j, doc.getNewSubjectId base = stripTrailingDigits base ++ natToStr j ∧
        startIndex base ≤ j ∧
        ∀ k, startIndex base ≤ k → k < j →
          (stripTrailingDigits base ++ natToStr k) ∈ doc.rules.map Prod.fst := by
  obtain ⟨d, hd, hfree⟩ :=
    exists_free_index (doc.rules.map Prod.fst) (stripTrailingDigits base) (startIndex base)
  have hlen : (doc.rules.map Prod.fst).length = doc.rules.length := List.length_map _ _
  obtain ⟨hfree2, hle, hmin⟩ :=
    findFreeIndex_spec (doc.rules.map Prod.fst) (stripTrailingDigits base)
      ((doc.rules.map Prod.fst).length + 1) (startIndex base) ⟨d, hd, hfree⟩
  constructor
  · show (stripTrailingDigits base ++
      natToStr (findFreeIndex (doc.rules.map Prod.fst) (stripTrailingDigits base)
        ((doc.rules.map Prod.fst).length + 1) (startIndex base))) ∉ doc.rules.map Prod.fst
    exact hfree2
  · exact ⟨_, rfl, hle, hmin⟩

/-- Claim C8, counterexample: for a base with no trailing digits on an
empty store the generator returns the base with 0 appended, because
JavaScript's Number of the empty match is 0; the claim predicts a suffix
starting from 1. -/
theorem claim_C8_counterexample :
    AclDoc.getNewSubjectId ⟨none, [], []⟩ "abc" = "abc0" ∧
      AclDoc.getNewSubjectId ⟨none, [], []⟩ "abc" ≠ "abc1" := by
  constructor
  · rfl
  · decide

/-- Claim C8 (amended): the generated id is not a key of the store, and
is the base with its numeric suffix stripped followed by the smallest
unused integer counted upward from the base's own trailing digits — or
from 0, not 1, when the base has no trailing digits, since the source
computes Number of the empty match. -/
theorem claim_C8_fresh_id (doc : AclDoc) (base : String) :
    (doc.getNewSubjectId base) ∉ doc.rules.map Prod.fst ∧
      ∃ j, doc.getNewSubjectId base = stripTrailingDigits base ++ natToStr j ∧
        startIndex base ≤ j ∧
        ∀ k, startIndex base ≤ k → k < j →
          (stripTrailingDigits base ++ natToStr k) ∈ doc.rules.map Prod.fst :=
  getNewSubjectId_spec doc base

theorem lookupRule_some_mem (l : List (String × AclRule)) (k : String) (r : AclRule)
    (h : lookupRule l k = some r) : k ∈ l.map Prod.fst := by
  induction l with
  | nil => exact absurd h (by simp [lookupRule])
  | cons e t ih =>
    rw [lookupRule] at h
    by_cases hk : e.1 = k
    · simp [hk]
    · rw [if_neg hk] at h
      simp [ih h]

theorem storeSet_of_not_mem (l : List (String × AclRule)) (k : String) (v : AclRule)
    (h : k ∉ l.map Prod.fst) : storeSet l k v = l ++ [(k, v)] := by
  induction l with
  | nil => rfl
  | cons e t ih =>
    simp only [List.map_cons, List.mem_cons] at h
    push_neg at h
    rw [show (e :: t : List (String × AclRule)) = (e.1, e.2) :: t from rfl, storeSet,
      if_neg (fun he => h.1 he.symm)]
    rw [ih h.2]
    rfl

theorem storeSet_keys_of_mem (l : List (String × AclRule)) (k : String) (v : AclRule)
    (h : k ∈ l.map Prod.fst) : (storeSet l k v).map Prod.fst = l.map Prod.fst := by
  induction l with
  | nil => exact absurd h (by simp)
  | cons e t ih =>
    rw [show (e :: t : List (String × AclRule)) = (e.1, e.2) :: t from rfl, storeSet]
    by_cases hk : e.1 = k
    · rw [if_pos hk]
      simp [hk]
    · rw [if_neg hk]
      simp only [List.map_cons, List.mem_cons] at h
      rcases h with h | h
      · exact absurd h.symm hk
      · simp [ih h]

theorem mem_map_fst_eraseKey (l : List (String × AclRule)) (key x : String) :
    x ∈ (eraseKey l key).map Prod.fst ↔ (x ∈ l.map Prod.fst ∧ x ≠ key) := by
  induction l with
  | nil => simp [eraseKey]
  | cons e t ih =>
    rw [show (e :: t : List (String × AclRule)) = (e.1, e.2) :: t from rfl, eraseKey]
    by_cases hk : e.1 = key
    · rw [if_pos hk]
      subst hk
      rw [ih]
      constructor
      · rintro ⟨h1, h2⟩
        exact ⟨by simp [h1], h2⟩
      · rintro ⟨h1, h2⟩
        rw [List.map_cons, List.mem_cons] at h1
        rcases h1 with rfl | h3
        · exact absurd rfl h2
        · exact ⟨h3, h2⟩
    · rw [if_neg hk]
      simp only [List.map_cons, List.mem_cons, ih]
      constructor
      · rintro (rfl | ⟨h1, h2⟩)
        · exact ⟨Or.inl rfl, hk⟩
        · exact ⟨Or.inr h1, h2⟩
      · rintro ⟨rfl | h1, h2⟩
        · exact Or.inl rfl
        · exact Or.inr ⟨h1, h2⟩

theorem lookupRule_eraseKey_ne (l : List (String × AclRule)) (key x : String)
    (h : x ≠ key) : lookupRule (eraseKey l key) x = lookupRule l x := by
  induction l with
  | nil => rfl
  | cons e t ih =>
    rw [show (e :: t : List (String × AclRule)) = (e.1, e.2) :: t from rfl, eraseKey]
    by_cases hk : e.1 = key
    · rw [if_pos hk, ih, lookupRule, if_neg (fun he => h (he.symm.trans hk))]
    · rw [if_neg hk, lookupRule, lookupRule]
      by_cases hx : e.1 = x
      · rw [if_pos hx, if_pos hx]
      · rw [if_neg hx, if_neg hx, ih]

theorem lookupRule_append_of_mem (l m : List (String × AclRule)) (k : String)
    (h : k ∈ l.map Prod.fst) : lookupRule (l ++ m) k = lookupRule l k := by
  induction l with
  | nil => exact absurd h (by simp)
  | cons e t ih =>
    rw [show ((e :: t : List (String × AclRule)) ++ m) = (e.1, e.2) :: (t ++ m) from rfl,
      lookupRule, show (e :: t : List (String × AclRule)) = (e.1, e.2) :: t from rfl,
      lookupRule]
    by_cases hk : e.1 = k
    · rw [if_pos hk, if_pos hk]
    · rw [if_neg hk, if_neg hk]
      simp only [List.map_cons, List.mem_cons] at h
      rcases h with h | h
      · exact absurd h.symm hk
      · exact ih h

theorem subtract_length_le (a b : AclRule) : (AclRule.subtract a b).length ≤ 2 := by
  rw [AclRule.subtract]
  exact Nat.le_trans (List.length_filter_le _ _) (by simp)

/-- Claim C7, counterexample: deleting read for webId A from a store
whose only entry sits at key a1 splits the rule into two fragments; the
first fragment is reinserted under a1 itself — an id that was previously
a key of the store — because the generator only avoids ids that are keys
at the moment of insertion and a1 has just been deleted. -/
theorem claim_C7_counterexample :
    (AclRule.subtract
        (⟨{Permission.read, Permission.write}, {Agent.webId "A", Agent.webId "B"},
          ["file"], [], none, none⟩ : AclRule)
        (⟨{Permission.read}, {Agent.webId "A"}, ["file"], [], none, none⟩ : AclRule)).length
        ≠ 1 ∧
      "a1" ∈ ((⟨some "file",
          [("a1", (⟨{Permission.read, Permission.write},
            {Agent.webId "A", Agent.webId "B"}, ["file"], [], none, none⟩ : AclRule))],
          []⟩ : AclDoc).rules.map Prod.fst) ∧
      "a1" ∈ (((⟨some "file",
          [("a1", (⟨{Permission.read, Permission.write},
            {Agent.webId "A", Agent.webId "B"}, ["file"], [], none, none⟩ : AclRule))],
          []⟩ : AclDoc).deleteBySubject "a1"
            (some (⟨{Permission.read}, {Agent.webId "A"}, ["file"], [],
              none, none⟩ : AclRule))).rules.map Prod.fst) := by
  refine ⟨by decide, by decide, by decide⟩

/-- Claim C7 (amended): for a stored subject id, deleting a rule whose
subtraction from the stored rule yields exactly one fragment replaces
the entry in place and leaves the key set unchanged; with zero or two
fragments the original entry is deleted and the fragments are appended
under generated ids that are fresh at the moment each one is inserted —
pairwise distinct and none of them a key of the store with the original
entry removed, though a fresh id may coincide with the just-removed
original subject id; entries at other subject ids are unchanged. -/
theorem claim_C7_deleteBySubject (doc : AclDoc) (sid : String) (target prev : AclRule)
    (hprev : lookupRule doc.rules sid = some prev) :
    (∀ f, AclRule.subtract prev target = [f] →
      (doc.deleteBySubject sid (some target)).rules = storeSet doc.rules sid f ∧
      (doc.deleteBySubject sid (some target)).rules.map Prod.fst =
        doc.rules.map Prod.fst) ∧
    ((AclRule.subtract prev target).length ≠ 1 →
      ∃ ids : List String,
        ids.length = (AclRule.subtract prev target).length ∧
        ids.Nodup ∧
        (∀ i ∈ ids, i ∉ (eraseKey doc.rules sid).map Prod.fst) ∧
        (doc.deleteBySubject sid (some target)).rules =
          eraseKey doc.rules sid ++ ids.zip (AclRule.subtract prev target) ∧
        ∀ k ∈ doc.rules.map Prod.fst, k ≠ sid →
          lookupRule (doc.deleteBySubject sid (some target)).rules k =
            lookupRule doc.rules k) := by
  constructor
  · intro f hf
    have hres : (doc.deleteBySubject sid (some target)).rules = storeSet doc.rules sid f := by
      simp [AclDoc.deleteBySubject, hprev, hf]
    exact ⟨hres, by
      rw [hres]
      exact storeSet_keys_of_mem _ _ _ (lookupRule_some_mem _ _ _ hprev)⟩
  · intro hne
    cases hsub : AclRule.subtract prev target with
    | nil =>
      have hres : (doc.deleteBySubject sid (some target)).rules = eraseKey doc.rules sid := by
        simp [AclDoc.deleteBySubject, hprev, hsub]
      refine ⟨[], by simp [hsub], by simp, by simp, by simp [hres, hsub], ?_⟩
      intro k _ hk
      rw [hres]
      exact lookupRule_eraseKey_ne _ _ _ hk
    | cons f rest =>
      cases rest with
      | nil => exact absurd (by rw [hsub]; rfl) hne
      | cons g rest2 =>
        have hlen := subtract_length_le prev target
        rw [hsub] at hlen
        simp only [List.length_cons] at hlen
        have hrest2 : rest2 = [] := List.length_eq_zero.1 (by omega)
        subst hrest2
        have hres : doc.deleteBySubject sid (some target) =
            List.foldl
              (fun d nr => { d with rules := storeSet d.rules (d.getNewSubjectId sid) nr })
              { doc with rules := eraseKey doc.rules sid } [f, g] := by
          simp [AclDoc.deleteBySubject, hprev, hsub]
        have hfresh1 :
            (({ doc with rules := eraseKey doc.rules sid } : AclDoc).getNewSubjectId sid) ∉
              (eraseKey doc.rules sid).map Prod.fst :=
          (getNewSubjectId_spec { doc with rules := eraseKey doc.rules sid } sid).1
        rw [List.foldl_cons] at hres
        have hD1 : ({ doc with rules := eraseKey doc.rules sid } : AclDoc).rules = eraseKey doc.rules sid := rfl
        have hset1 :
            storeSet (eraseKey doc.rules sid)
              (({ doc with rules := eraseKey doc.rules sid } : AclDoc).getNewSubjectId sid) f =
            eraseKey doc.rules sid ++
              [((({ doc with rules := eraseKey doc.rules sid } : AclDoc).getNewSubjectId sid), f)] :=
          storeSet_of_not_mem _ _ _ hfresh1
        rw [List.foldl_cons, List.foldl_nil] at hres
        set i1 := (({ doc with rules := eraseKey doc.rules sid } : AclDoc).getNewSubjectId sid) with hi1def
        set D1 : AclDoc :=
          { doc with rules := storeSet (eraseKey doc.rules sid) i1 f } with hD1def
        have hD1rules : D1.rules = eraseKey doc.rules sid ++ [(i1, f)] := hset1
        set i2 := D1.getNewSubjectId sid with hi2def
        have hfresh2 : i2 ∉ D1.rules.map Prod.fst := (getNewSubjectId_spec D1 sid).1
        rw [hD1rules] at hfresh2
        have h2a : i2 ∉ (eraseKey doc.rules sid).map Prod.fst := by
          intro hm
          exact hfresh2 (by rw [List.map_append]; exact List.mem_append_left _ hm)
        have h2b : i2 ≠ i1 := by
          intro he
          exact hfresh2 (by rw [List.map_append]; exact List.mem_append_right _ (by simp [he]))
        have hset2 : storeSet D1.rules i2 g =
            eraseKey doc.rules sid ++ [(i1, f), (i2, g)] := by
          rw [hD1rules, storeSet_of_not_mem _ _ _ hfresh2]
          simp
        have hresRules : (doc.deleteBySubject sid (some target)).rules =
            eraseKey doc.rules sid ++ [(i1, f), (i2, g)] := by
          rw [hres]
          exact hset2
        refine ⟨[i1, i2], by simp [hsub], ?_, ?_, ?_, ?_⟩
        · simp [List.nodup_cons]
          exact fun he => h2b he.symm
        · intro i hi
          rcases List.mem_cons.1 hi with rfl | hi2
          · exact hfresh1
          · rcases List.mem_singleton.1 hi2 with rfl
            exact h2a
        · rw [hresRules]
          rfl
        · intro k hk hksid
          rw [hresRules]
          have hkE : k ∈ (eraseKey doc.rules sid).map Prod.fst :=
            (mem_map_fst_eraseKey _ _ _).2 ⟨hk, hksid⟩
          rw [lookupRule_append_of_mem _ _ _ hkE]
          exact lookupRule_eraseKey_ne _ _ _ hksid

/-- Claim C7, witness: the amended theorem applied to a two-entry store
where subtracting the target from the entry at s1 yields one fragment. -/
theorem claim_C7_witness :
    lookupRule scenarioDoc.rules "s1" =
        some (⟨{Permission.read, Permission.write}, {Agent.webId "A", Agent.webId "B"},
          ["file"], [], none, none⟩ : AclRule) ∧
      ∀ f, AclRule.subtract
          (⟨{Permission.read, Permission.write}, {Agent.webId "A", Agent.webId "B"},
            ["file"], [], none, none⟩ : AclRule)
          (⟨{Permission.read, Permission.write}, {Agent.webId "A"},
            ["file"], [], none, none⟩ : AclRule) = [f] →
        (scenarioDoc.deleteBySubject "s1"
            (some (⟨{Permission.read, Permission.write}, {Agent.webId "A"},
              ["file"], [], none, none⟩ : AclRule))).rules =
          storeSet scenarioDoc.rules "s1" f ∧
        (scenarioDoc.deleteBySubject "s1"
            (some (⟨{Permission.read, Permission.write}, {Agent.webId "A"},
              ["file"], [], none, none⟩ : AclRule))).rules.map Prod.fst =
          scenarioDoc.rules.map Prod.fst :=
  ⟨by decide,
    (claim_C7_deleteBySubject scenarioDoc "s1"
      (⟨{Permission.read, Permission.write}, {Agent.webId "A"},
        ["file"], [], none, none⟩ : AclRule)
      (⟨{Permission.read, Permission.write}, {Agent.webId "A", Agent.webId "B"},
        ["file"], [], none, none⟩ : AclRule) (by decide)).1⟩
